import Mathlib

/-!
Verification development for the comprehensive backtesting framework in
`src/backtesting.py` (class `ComprehensiveBacktestingFramework`).  Machine
floats are modelled as exact rationals; Python `range` and positional slicing
(`iloc`) are modelled with their documented integer semantics.
-/

/-- Python exception raised by library calls in the source.  The only
exception reachable in the embedded fragments is `ValueError`
(`range()` with a zero step, `scipy.stats.shapiro` on fewer than 3
observations); the exception's message is not modelled. -/
inductive PyError
  | valueError
deriving DecidableEq

/-- Normalisation of one slice endpoint, as Python/pandas positional slicing
does it for a sequence of length `n`: a negative index counts from the end
(clamped below at 0), and any index is clamped above at `n`. -/
def pySliceBound (n : ℕ) (i : ℤ) : ℕ :=
  if i < 0 then min (i + n).toNat n else min i.toNat n

/-- Positional slice `xs[a:b]` with Python semantics (`DataFrame.iloc`
row slicing behaves like Python list slicing): endpoints are normalised by
`pySliceBound` and an out-of-range slice is silently truncated, never an
error. -/
def pySlice {α : Type} (xs : List α) (a b : ℤ) : List α :=
  (xs.take (pySliceBound xs.length b)).drop (pySliceBound xs.length a)

/-- Elements of Python `range(start, stop, step)` for a nonzero `step`:
`start, start + step, ...` with `max 0 (ceil ((stop - start) / step))`
elements.  Integer `/` on `ℤ` rounds toward negative infinity for a positive
divisor, so `(stop - start + step - 1) / step` is that ceiling. -/
def pyRangeList (start stop step : ℤ) : List ℤ :=
  if 0 < step then
    (List.range ((stop - start + step - 1) / step).toNat).map
      (fun (i : ℕ) => start + step * (i : ℤ))
  else
    (List.range ((start - stop + (-step) - 1) / (-step)).toNat).map
      (fun (i : ℕ) => start + step * (i : ℤ))

/-- Python `range(start, stop, step)`: raises `ValueError` when `step = 0`,
otherwise yields `pyRangeList`.  (In the source the error surfaces only when
the generator wrapping the `range` is first advanced, since generator bodies
run lazily; the embedding collapses the generator to its outcome.) -/
def pyRange (start stop step : ℤ) : Except PyError (List ℤ) :=
  if step = 0 then .error .valueError else .ok (pyRangeList start stop step)

/-- Embeds `WalkForwardAnalysis.generate_walk_forward_splits`
(src/backtesting.py lines 33-46):

    for start in range(0, len(self.data) - self.window_size, self.forecast_horizon):
        train_data = self.data.iloc[start : start + self.window_size]
        test_data  = self.data.iloc[start + self.window_size
                                    : start + self.window_size + self.forecast_horizon]
        yield train_data, test_data

The generator is represented by the list of pairs it yields (or the error it
raises).  No validation of `window_size`/`forecast_horizon` exists in the
source. -/
def generate_walk_forward_splits (data : List ℚ) (window_size forecast_horizon : ℤ) :
    Except PyError (List (List ℚ × List ℚ)) :=
  match pyRange 0 ((data.length : ℤ) - window_size) forecast_horizon with
  | .error e => .error e
  | .ok starts => .ok (starts.map (fun start =>
      (pySlice data start (start + window_size),
       pySlice data (start + window_size) (start + window_size + forecast_horizon))))

/-- Arithmetic mean as computed by `np.mean`: sum divided by length. -/
def npMean (xs : List ℚ) : ℚ := xs.sum / xs.length

/-- Population variance as computed by `np.var` (default `ddof=0`):
mean squared deviation from the mean. -/
def npVar (xs : List ℚ) : ℚ := (xs.map (fun x => (x - npMean xs) ^ 2)).sum / xs.length

/-- Off-diagonal entry `np.cov(xs, ys)[0, 1]`: the *sample* covariance, with
`np.cov`'s default normalisation by `N - 1` (not `N`). -/
def npCovPair (xs ys : List ℚ) : ℚ :=
  (List.zipWith (fun a b => (a - npMean xs) * (b - npMean ys)) xs ys).sum /
    ((xs.length : ℚ) - 1)

/-- Result of a numpy floating-point computation: either a finite value
(modelled exactly as a rational) or a non-finite float (`inf`/`-inf`/`nan`).
Dividing a finite float by zero produces a non-finite float together with a
`RuntimeWarning`; it does not raise an exception. -/
inductive NpVal
  | fin (q : ℚ)
  | nonfinite
deriving DecidableEq

/-- Numpy float division: non-finite on a zero divisor, exact otherwise. -/
def npDivFloat (a b : ℚ) : NpVal := if b = 0 then .nonfinite else .fin (a / b)

/-- Embeds `RiskDecomposition.calculate_beta` (src/backtesting.py lines
105-109):

    covariance = np.cov(self.returns, self.benchmark_returns)[0, 1]
    benchmark_variance = np.var(self.benchmark_returns)
    return covariance / benchmark_variance

Note the estimator mismatch in the source: `np.cov` normalises by `N - 1`
while `np.var` normalises by `N`.  No guard against a zero
`benchmark_variance` exists; the division is performed unconditionally. -/
def calculate_beta (returns benchmark_returns : List ℚ) : NpVal :=
  npDivFloat (npCovPair returns benchmark_returns) (npVar benchmark_returns)

/-- Embeds `RiskDecomposition.calculate_specific_risk` (src/backtesting.py
lines 111-114): `returns - self.calculate_beta() * self.benchmark_returns`,
element-wise over the aligned series.  A non-finite beta propagates
element-wise into the residual series. -/
def calculate_specific_risk (returns benchmark_returns : List ℚ) : List NpVal :=
  match calculate_beta returns benchmark_returns with
  | .fin b => List.zipWith (fun r m => NpVal.fin (r - b * m)) returns benchmark_returns
  | .nonfinite => List.zipWith (fun _ _ => NpVal.nonfinite) returns benchmark_returns

/-- Modelled from scipy (an external library, not part of this repository):
`scipy.stats.shapiro` raises `ValueError` when the sample has fewer than 3
observations ("Data must be at least length 3."); otherwise it returns a
test statistic and p-value, whose numeric values are outside the scope of
the claims and are abstracted as `Unit`. -/
def stats_shapiro (xs : List ℚ) : Except PyError Unit :=
  if xs.length < 3 then .error .valueError else .ok ()

/-- Modelled from scipy: `scipy.stats.jarque_bera` computes skewness and
kurtosis statistics and returns without raising for the sample sizes
reachable here; the statistic's value is abstracted as `Unit`. -/
def stats_jarque_bera (_xs : List ℚ) : Except PyError Unit := .ok ()

/-- Modelled from scipy: `scipy.stats.anderson` returns a statistic and
critical values without raising for the sample sizes reachable here; the
values are abstracted as `Unit`. -/
def stats_anderson (_xs : List ℚ) : Except PyError Unit := .ok ()

/-- Result record of `StatisticalValidator.normality_tests`: the dict
`{'shapiro_wilk': ..., 'jarque_bera': ..., 'anderson': ...}`. -/
structure NormalityReport where
  shapiro_wilk : Unit
  jarque_bera : Unit
  anderson : Unit
deriving DecidableEq

/-- Embeds `StatisticalValidator.normality_tests` (src/backtesting.py lines
132-138).  A Python dict literal evaluates its values in order, so
`stats.shapiro` runs first and its exception aborts the whole call. -/
def normality_tests (returns : List ℚ) : Except PyError NormalityReport := do
  let s ← stats_shapiro returns
  let j ← stats_jarque_bera returns
  let a ← stats_anderson returns
  return ⟨s, j, a⟩

/-- Broker configuration consumed by `TransactionCostModeler`. -/
structure BrokerConfig where
  commission_rate : ℚ
  slippage_rate : ℚ
  market_impact_rate : ℚ

/-- One row of the trade ledger DataFrame; only the `volume` and `spread`
columns are read by the cost modeler. -/
structure TradeRecord where
  volume : ℚ
  spread : ℚ

/-- Embeds `TransactionCostModeler.calculate_spread_cost` (line 177-179):
`trades['spread'] * trades['volume']`, a per-row pandas Series. -/
def calculate_spread_cost (trades : List TradeRecord) : List ℚ :=
  trades.map (fun t => t.spread * t.volume)

/-- Embeds `TransactionCostModeler.calculate_commission` (line 181-183):
`trades['volume'] * commission_rate`, a per-row Series. -/
def calculate_commission (bc : BrokerConfig) (trades : List TradeRecord) : List ℚ :=
  trades.map (fun t => t.volume * bc.commission_rate)

/-- Embeds `TransactionCostModeler.estimate_slippage` (line 185-187):
`trades['volume'] * slippage_rate`, a per-row Series. -/
def estimate_slippage (bc : BrokerConfig) (trades : List TradeRecord) : List ℚ :=
  trades.map (fun t => t.volume * bc.slippage_rate)

/-- Embeds `TransactionCostModeler.calculate_market_impact` (line 189-191):
`trades['volume'] * market_impact_rate`, a per-row Series. -/
def calculate_market_impact (bc : BrokerConfig) (trades : List TradeRecord) : List ℚ :=
  trades.map (fun t => t.volume * bc.market_impact_rate)

/-- Element-wise addition of two aligned pandas Series. -/
def seriesAdd (xs ys : List ℚ) : List ℚ := List.zipWith (· + ·) xs ys

/-- Result of `TransactionCostModeler.estimate_transaction_costs`: the four
per-row cost Series of `detailed_costs`, plus `total_cost_percentage`.
Because `sum(costs.values())` adds four pandas Series element-wise and a
Series divided by a scalar is again a Series, `total_cost_percentage` is a
per-row Series, not a single float. -/
structure CostEstimate where
  spread_cost : List ℚ
  commission : List ℚ
  slippage : List ℚ
  market_impact : List ℚ
  total_cost_percentage : List ℚ

/-- Embeds `TransactionCostModeler.estimate_transaction_costs`
(src/backtesting.py lines 155-175):

    costs = {'spread_cost': ..., 'commission': ..., 'slippage': ..., 'market_impact': ...}
    total_trade_volume = trades['volume'].sum()
    total_cost = sum(costs.values())
    return {'detailed_costs': costs, 'total_cost_percentage': total_cost / total_trade_volume}

`sum` starts from the int `0`; `0 + Series` and `Series + Series` are
element-wise, in the dict's insertion order. -/
def estimate_transaction_costs (bc : BrokerConfig) (trades : List TradeRecord) : CostEstimate :=
  let spread_cost := calculate_spread_cost trades
  let commission := calculate_commission bc trades
  let slippage := estimate_slippage bc trades
  let market_impact := calculate_market_impact bc trades
  let total_trade_volume := (trades.map (fun t => t.volume)).sum
  let total_cost := seriesAdd (seriesAdd (seriesAdd spread_cost commission) slippage) market_impact
  ⟨spread_cost, commission, slippage, market_impact,
   total_cost.map (fun c => c / total_trade_volume)⟩

/-- Total traded volume `trades['volume'].sum()`. -/
def totalVolume (trades : List TradeRecord) : ℚ := (trades.map (fun t => t.volume)).sum

/-- Sum of the four per-row cost components of a single trade row; used to
state what `estimate_transaction_costs` actually computes per row. -/
def rowTotalCost (bc : BrokerConfig) (t : TradeRecord) : ℚ :=
  t.spread * t.volume + t.volume * bc.commission_rate +
    t.volume * bc.slippage_rate + t.volume * bc.market_impact_rate

/-- The broker configuration of the spec's worked CostModel example:
`{commission_rate=0.001, slippage_rate=0.0005, market_impact_rate=0.0001}`. -/
def sampleBroker : BrokerConfig := ⟨1/1000, 5/10000, 1/10000⟩

/-- The two-row trade ledger of the spec's worked CostModel example:
`{volume=100, spread=0.01}` and `{volume=200, spread=0.02}`. -/
def sampleLedger : List TradeRecord := [⟨100, 1/100⟩, ⟨200, 2/100⟩]

/-- Nonnegative square root on ℚ standing in for `np.sqrt`: writing
`q = num/den` (reduced), `sqrt q = sqrt (num * den) / den`, computed with
`Nat.sqrt`.  It is exact whenever the true square root is rational — in
particular `ratSqrt 0 = 0`, the only value at which any claim inspects it —
and a rational approximation otherwise (a real float is approximate there
too). -/
def ratSqrt (q : ℚ) : ℚ :=
  if q ≤ 0 then 0 else (Nat.sqrt (q.num.toNat * q.den) : ℚ) / (q.den : ℚ)

/-- Population standard deviation as computed by `np.std` (default
`ddof=0`): the square root of `npVar`.  Always nonnegative, and zero exactly
when the variance is zero. -/
def npStd (xs : List ℚ) : ℚ := ratSqrt (npVar xs)

/-- Cumulative product `np.cumprod`: element `t` is the product of the first
`t + 1` entries. -/
def npCumprod (xs : List ℚ) : List ℚ :=
  (List.scanl (fun acc x => acc * x) 1 xs).drop 1

/-- Percentile of a data vector with `np.percentile`'s default linear
interpolation: sort the data ascending, set `h = q * (n - 1) / 100`, and
interpolate between the neighbouring order statistics at positions `⌊h⌋` and
`min (⌊h⌋ + 1) (n - 1)`.  numpy only evaluates this for a nonempty vector
and `0 ≤ q ≤ 100`, where `0 ≤ h ≤ n - 1`. -/
def npPercentile (xs : List ℚ) (q : ℚ) : ℚ :=
  let s := List.insertionSort (· ≤ ·) xs
  let n := s.length
  let h := q * ((n : ℚ) - 1) / 100
  let i := (⌊h⌋).toNat
  let lo := s.getD i 0
  let hi := s.getD (min (i + 1) (n - 1)) 0
  lo + (h - (⌊h⌋ : ℚ)) * (hi - lo)

/-- Column `t` of the simulated-paths matrix: the portfolio values of every
path at period `t` (the matrix is rectangular in the source; `getD` with an
unused default stands in for plain indexing). -/
def columnAt (pv : List (List ℚ)) (t : ℕ) : List ℚ := pv.map (fun row => row.getD t 0)

/-- Cross-sectional percentile `np.percentile(portfolio_values, q, axis=0)`:
one percentile per period, taken across all simulated paths at that
period. -/
def percentileAxis0 (pv : List (List ℚ)) (q : ℚ) : List ℚ :=
  (List.range (pv.headD []).length).map (fun t => npPercentile (columnAt pv t) q)

/-- The dict returned by
`MonteCarloSimulation.calculate_confidence_intervals`: `ci95` is the pair of
2.5th/97.5th percentile series, `ci99` the pair of 0.5th/99.5th percentile
series. -/
structure ConfidenceBands where
  ci95 : List ℚ × List ℚ
  ci99 : List ℚ × List ℚ

/-- Embeds `MonteCarloSimulation.calculate_confidence_intervals`
(src/backtesting.py lines 80-87):

    return {'95%': np.percentile(portfolio_values, [2.5, 97.5], axis=0),
            '99%': np.percentile(portfolio_values, [0.5, 99.5], axis=0)} -/
def calculate_confidence_intervals (portfolio_values : List (List ℚ)) : ConfidenceBands :=
  ⟨(percentileAxis0 portfolio_values (5/2), percentileAxis0 portfolio_values (195/2)),
   (percentileAxis0 portfolio_values (1/2), percentileAxis0 portfolio_values (199/2))⟩

/-- The dict returned by `MonteCarloSimulation.simulate`. -/
structure MCResult where
  simulations : List (List ℚ)
  portfolio_values : List (List ℚ)
  confidence_intervals : ConfidenceBands

/-- Embeds `MonteCarloSimulation.simulate` (src/backtesting.py lines 52-78):

    mu = np.mean(self.returns)
    sigma = np.std(self.returns)
    simulations = np.random.normal(mu, sigma, (num_simulations, num_periods))
    portfolio_values = np.cumprod(1 + simulations, axis=1)

`np.random.normal(mu, sigma, shape)` draws `mu + sigma * z` for independent
standard-normal variates `z`; the variates are supplied here as the
parameter `z`, over which every theorem quantifies universally.  `scale=0`
is legal for `np.random.normal` (only a negative scale raises), and
`np.std` is always nonnegative, so this code path raises no error. -/
def simulate (returns : List ℚ) (num_simulations num_periods : ℕ) (z : ℕ → ℕ → ℚ) : MCResult :=
  let mu := npMean returns
  let sigma := npStd returns
  let sims := (List.range num_simulations).map (fun i =>
    (List.range num_periods).map (fun j => mu + sigma * z i j))
  let pv := sims.map (fun row => npCumprod (row.map (fun r => 1 + r)))
  ⟨sims, pv, calculate_confidence_intervals pv⟩

/-- Default argument `num_simulations=10000` of `MonteCarloSimulation.simulate`
(src/backtesting.py line 52). -/
def mcNumSimulationsDefault : ℕ := 10000

/-- Default argument `num_periods=252` of `MonteCarloSimulation.simulate`
(src/backtesting.py line 52). -/
def mcNumPeriodsDefault : ℕ := 252

/-- The configuration dict consumed by `run_comprehensive_backtest`
(src/backtesting.py lines 198-233): exactly the keys the orchestrator
reads. -/
structure BacktestConfig where
  window_size : ℤ
  forecast_horizon : ℤ
  benchmark_returns : List ℚ
  broker_config : BrokerConfig

/-- Embeds the Monte Carlo stage of `run_comprehensive_backtest`
(src/backtesting.py lines 213-215):

    monte_carlo = self.MonteCarloSimulation(self.strategy.returns)
    mc_results = monte_carlo.simulate()

`simulate()` is invoked with no arguments, so both defaults apply; the
configuration dict is in scope (`self.config`) but this stage reads nothing
from it. -/
def monte_carlo_stage (_config : BacktestConfig) (strategy_returns : List ℚ)
    (z : ℕ → ℕ → ℚ) : MCResult :=
  simulate strategy_returns mcNumSimulationsDefault mcNumPeriodsDefault z

/-! ## Helper lemmas -/

/-- The element-wise sum of the four per-row cost Series equals a single map
computing the per-row total cost. -/
theorem cost_series_sum (bc : BrokerConfig) (trades : List TradeRecord) :
    seriesAdd (seriesAdd (seriesAdd (calculate_spread_cost trades)
        (calculate_commission bc trades)) (estimate_slippage bc trades))
      (calculate_market_impact bc trades) = trades.map (rowTotalCost bc) := by
  induction trades with
  | nil => rfl
  | cons t ts ih =>
      simp only [calculate_spread_cost, calculate_commission, estimate_slippage,
        calculate_market_impact, seriesAdd, List.map_cons, List.zipWith_cons_cons] at ih ⊢
      rw [List.cons.injEq]
      exact ⟨rfl, ih⟩

/-- Slice-endpoint normalisation at a nonnegative index is a plain clamp. -/
theorem pySliceBound_natCast (n k : ℕ) : pySliceBound n (k : ℤ) = min k n := by
  simp [pySliceBound]

/-- A slice `data[a : a + len]` with nonnegative in-range start equals
drop-then-take; the end point may exceed the length, in which case the slice
is truncated. -/
theorem pySlice_take_drop (data : List ℚ) (a len : ℕ) (ha : a ≤ data.length) :
    pySlice data (a : ℤ) ((a : ℤ) + (len : ℤ)) = (data.drop a).take len := by
  have hcast : ((a : ℤ) + (len : ℤ)) = ((a + len : ℕ) : ℤ) := by push_cast; ring
  rw [pySlice, hcast, pySliceBound_natCast, pySliceBound_natCast, min_eq_left ha,
    List.drop_take, List.take_eq_take]
  simp only [List.length_drop]
  omega

/-- The element count of `range(0, N - W, H)` over the integers, expressed
over the naturals: `⌈(N − W) / H⌉` with truncated subtraction. -/
theorem pyRangeCount (N W H : ℕ) (hH : 1 ≤ H) :
    (((N : ℤ) - (W : ℤ) + (H : ℤ) - 1) / (H : ℤ)).toNat = (N - W + H - 1) / H := by
  rcases le_or_lt W N with hWN | hNW
  · have hcast : ((N : ℤ) - (W : ℤ) + (H : ℤ) - 1) = ((N - W + H - 1 : ℕ) : ℤ) := by omega
    rw [hcast, ← Int.natCast_div, Int.toNat_natCast]
  · have h0 : N - W = 0 := by omega
    have hq : ((N : ℤ) - (W : ℤ) + (H : ℤ) - 1) / (H : ℤ) ≤ ((H : ℤ) - 1) / (H : ℤ) :=
      Int.ediv_le_ediv (by omega) (by omega)
    have hz : ((H : ℤ) - 1) / (H : ℤ) = 0 := Int.ediv_eq_zero_of_lt (by omega) (by omega)
    rw [h0, Nat.div_eq_of_lt (by omega), Int.toNat_eq_zero]
    omega

/-- Every index the splitter iterates over starts a train window that fits
entirely before the end of the series. -/
theorem split_index_lt (N W H i : ℕ) (hH : 1 ≤ H) (hi : i < (N - W + H - 1) / H) :
    i * H + W < N := by
  have h2 : (i + 1) * H ≤ N - W + H - 1 := (Nat.le_div_iff_mul_le (by omega)).mp hi
  have h3 : i * H + H = (i + 1) * H := by ring
  omega

/-- Closed form of the walk-forward splitter for valid parameters
(`H ≥ 1`): it yields `⌈(N − W) / H⌉` pairs (truncated subtraction), the
`i`-th being train `data[iH : iH + W]` and test `data[iH + W : iH + W + H]`,
the latter truncated at the end of the series by `List.take`'s clamping. -/
theorem generate_splits_eq (data : List ℚ) (W H : ℕ) (hH : 1 ≤ H) :
    generate_walk_forward_splits data (W : ℤ) (H : ℤ) =
      Except.ok ((List.range ((data.length - W + H - 1) / H)).map (fun i =>
        ((data.drop (i * H)).take W, (data.drop (i * H + W)).take H))) := by
  have hHz : (H : ℤ) ≠ 0 := by omega
  simp only [generate_walk_forward_splits, pyRange, if_neg hHz]
  congr 1
  rw [pyRangeList, if_pos (by omega : (0 : ℤ) < (H : ℤ)), List.map_map]
  have hcnt : ((((data.length : ℤ) - (W : ℤ)) - 0 + (H : ℤ) - 1) / (H : ℤ)).toNat
      = (data.length - W + H - 1) / H := by
    rw [show (((data.length : ℤ) - (W : ℤ)) - 0 + (H : ℤ) - 1)
        = ((data.length : ℤ) - (W : ℤ) + (H : ℤ) - 1) by ring]
    exact pyRangeCount data.length W H hH
  rw [hcnt]
  apply List.map_congr_left
  intro i hi
  rw [List.mem_range] at hi
  have hiW : i * H + W < data.length := split_index_lt data.length W H i hH hi
  have hstart : (0 : ℤ) + (H : ℤ) * (i : ℤ) = ((i * H : ℕ) : ℤ) := by push_cast; ring
  simp only [Function.comp_apply, hstart]
  rw [pySlice_take_drop data (i * H) W (by omega)]
  rw [show ((i * H : ℕ) : ℤ) + (W : ℤ) = ((i * H + W : ℕ) : ℤ) by push_cast; ring]
  rw [pySlice_take_drop data (i * H + W) H (by omega)]

/-! ## C1 — number of walk-forward pairs -/

/-- C1, counterexample: for `N = 5`, `W = 3`, `H = 3` we have `N > W` and
`W + H = 6 > 5 = N`, so the claim demands zero pairs (also
`⌊(N − W)/H⌋ = 0`); the code yields one pair, whose test slice is the
truncated `[4, 5]`. -/
theorem c1_counterexample :
    generate_walk_forward_splits [1, 2, 3, 4, 5] 3 3 =
      Except.ok [([1, 2, 3], [4, 5])] ∧
    (generate_walk_forward_splits [1, 2, 3, 4, 5] 3 3).toOption.map List.length = some 1 ∧
    (1 : ℕ) ≠ 0 := ⟨rfl, rfl, by decide⟩

/-- C1, amended: for every series of length `N` and valid `W ≥ 1`, `H ≥ 1`,
the number of yielded pairs is `⌈(N − W) / H⌉` (natural truncated
subtraction) — the ceiling, not the claimed floor, because
`range(0, N − W, H)` includes a final start whose test window is truncated.
When `N ≤ W` this is zero, but when `W < N < W + H` it is one, not the
claimed zero. -/
theorem c1_split_count (data : List ℚ) (W H : ℕ) (hW : 1 ≤ W) (hH : 1 ≤ H) :
    ∃ l, generate_walk_forward_splits data (W : ℤ) (H : ℤ) = Except.ok l ∧
      l.length = (data.length - W + H - 1) / H :=
  ⟨_, generate_splits_eq data W H hH, by simp⟩

/-- C1, witness: a series of length 7 with `W = 3`, `H = 3` yields
`⌈4/3⌉ = 2` pairs. -/
theorem c1_split_count_witness :
    ∃ l, generate_walk_forward_splits [1, 2, 3, 4, 5, 6, 7] 3 3 = Except.ok l ∧
      l.length = 2 :=
  c1_split_count [1, 2, 3, 4, 5, 6, 7] 3 3 (by decide) (by decide)

/-! ## C2 — shape of the yielded windows -/

/-- C2, counterexample: for the length-7 series with `W = 3`, `H = 3`, the
second yielded pair's test slice is `[7]`, of length 1 ≠ H = 3: the test
range `[6, 9)` runs past the end of the series and is yielded truncated, not
dropped. -/
theorem c2_counterexample :
    generate_walk_forward_splits [1, 2, 3, 4, 5, 6, 7] 3 3 =
      Except.ok [([1, 2, 3], [4, 5, 6]), ([4, 5, 6], [7])] ∧
    ([7] : List ℚ).length ≠ 3 := ⟨rfl, by decide⟩

/-- C2, amended: the `i`-th yielded pair has train slice
`data[iH : iH + W]` (always exactly `W` elements) and test slice
`data[iH + W : iH + W + H]` *clamped at the end of the series*, so its
length is `min H (N − (iH + W))`: the generator yields a pair for every
`i < ⌈(N − W)/H⌉`, including a final pair whose test slice is a truncated
trailing window (shorter than `H`), rather than stopping once
`iH + W + H > N`. -/
theorem c2_split_windows (data : List ℚ) (W H i : ℕ) (hW : 1 ≤ W) (hH : 1 ≤ H)
    (hi : i < (data.length - W + H - 1) / H) :
    ∃ l, generate_walk_forward_splits data (W : ℤ) (H : ℤ) = Except.ok l ∧
      l.getD i ([], []) =
        ((data.drop (i * H)).take W, (data.drop (i * H + W)).take H) ∧
      (l.getD i ([], [])).1.length = W ∧
      (l.getD i ([], [])).2.length = min H (data.length - (i * H + W)) := by
  have hiW : i * H + W < data.length := split_index_lt data.length W H i hH hi
  have hget : ((List.range ((data.length - W + H - 1) / H)).map (fun j =>
      ((data.drop (j * H)).take W, (data.drop (j * H + W)).take H))).getD i ([], []) =
      ((data.drop (i * H)).take W, (data.drop (i * H + W)).take H) := by
    have hlen : i < ((List.range ((data.length - W + H - 1) / H)).map (fun j =>
        ((data.drop (j * H)).take W, (data.drop (j * H + W)).take H))).length := by
      simpa using hi
    rw [List.getD_eq_getElem _ _ hlen, List.getElem_map, List.getElem_range]
  refine ⟨_, generate_splits_eq data W H hH, hget, ?_, ?_⟩
  · rw [hget]
    simp only [List.length_take, List.length_drop]
    exact min_eq_left (by omega)
  · rw [hget]
    simp only [List.length_take, List.length_drop]

/-- C2, witness: the amended statement at the length-7 series, `W = H = 3`,
`i = 1`: the second pair is `([4, 5, 6], [7])` with a truncated test slice of
length `min 3 1 = 1`. -/
theorem c2_split_windows_witness :
    ∃ l, generate_walk_forward_splits [1, 2, 3, 4, 5, 6, 7] 3 3 = Except.ok l ∧
      l.getD 1 ([], []) = ([4, 5, 6], [7]) ∧
      (l.getD 1 ([], [])).1.length = 3 ∧
      (l.getD 1 ([], [])).2.length = 1 := by
  have h := c2_split_windows [1, 2, 3, 4, 5, 6, 7] 3 3 1 (by decide) (by decide) (by decide)
  simpa using h

/-! ## C3 — CostModel total_cost_percentage -/

/-- C3, counterexample: for the spec's worked example (rows
`{volume=100, spread=0.01}`, `{volume=200, spread=0.02}` under
`{commission_rate=0.001, slippage_rate=0.0005, market_impact_rate=0.0001}`),
the code's `total_cost_percentage` is the two-element per-row Series
`[1.16/300, 4.32/300] = [29/7500, 9/625]`, not the single float
`5.48/300 = 137/7500` the claim asserts; the two entries do sum to
`137/7500`. -/
theorem c3_counterexample :
    (estimate_transaction_costs sampleBroker sampleLedger).total_cost_percentage
        = [29/7500, 9/625] ∧
    (estimate_transaction_costs sampleBroker sampleLedger).total_cost_percentage
        ≠ [(137/7500 : ℚ)] ∧
    (29/7500 : ℚ) + 9/625 = 137/7500 := by
  refine ⟨?_, ?_, by norm_num⟩ <;>
    norm_num [estimate_transaction_costs, calculate_spread_cost, calculate_commission,
      estimate_slippage, calculate_market_impact, seriesAdd, sampleBroker, sampleLedger]

/-- C3, amended: `total_cost_percentage` is a per-row Series whose entry for
each trade row is that row's total cost (all four components) divided by the
total volume; consequently the *sum* of its entries equals the claim's
aggregate `Σ(all four components over all rows) / Σ(volume)`. -/
theorem c3_cost_percentage_series (bc : BrokerConfig) (trades : List TradeRecord)
    (hvol : 0 < totalVolume trades) :
    (estimate_transaction_costs bc trades).total_cost_percentage =
      trades.map (fun t => rowTotalCost bc t / totalVolume trades) ∧
    ((estimate_transaction_costs bc trades).total_cost_percentage).sum =
      (trades.map (rowTotalCost bc)).sum / totalVolume trades := by
  have hrows : (estimate_transaction_costs bc trades).total_cost_percentage =
      trades.map (fun t => rowTotalCost bc t / totalVolume trades) := by
    simp only [estimate_transaction_costs, cost_series_sum, List.map_map, totalVolume]
    rfl
  refine ⟨hrows, ?_⟩
  rw [hrows]
  simp only [div_eq_mul_inv]
  rw [List.sum_map_mul_right]

/-- C3, witness: the amended statement instantiated at the spec's worked
example, whose total volume `300` is positive. -/
theorem c3_cost_percentage_series_witness :
    0 < totalVolume sampleLedger ∧
    ((estimate_transaction_costs sampleBroker sampleLedger).total_cost_percentage =
      sampleLedger.map (fun t => rowTotalCost sampleBroker t / totalVolume sampleLedger) ∧
    ((estimate_transaction_costs sampleBroker sampleLedger).total_cost_percentage).sum =
      (sampleLedger.map (rowTotalCost sampleBroker)).sum / totalVolume sampleLedger) :=
  ⟨by norm_num [totalVolume, sampleLedger],
   c3_cost_percentage_series sampleBroker sampleLedger
     (by norm_num [totalVolume, sampleLedger])⟩

/-! ## C4 — beta for identical series -/

/-- C4: evaluation of the code at the failing input
`returns = benchmark_returns = [0, 1]` (nonzero variance `1/4`).  Because
`np.cov` normalises by `N - 1` while `np.var` normalises by `N`, the code
computes `beta = 2`, not the claimed `1.0`, and
`specific_risk = [0, -1]`, not the claimed all-zero series. -/
theorem c4_beta_identical_series_eval :
    npVar ([0, 1] : List ℚ) ≠ 0 ∧
    calculate_beta [0, 1] [0, 1] = NpVal.fin 2 ∧
    NpVal.fin (2 : ℚ) ≠ NpVal.fin 1 ∧
    calculate_specific_risk [0, 1] [0, 1] = [NpVal.fin 0, NpVal.fin (-1)] ∧
    NpVal.fin (-1 : ℚ) ≠ NpVal.fin 0 := by
  refine ⟨?_, ?_, ?_, ?_, ?_⟩ <;>
    norm_num [calculate_specific_risk, calculate_beta, npDivFloat, npCovPair, npVar, npMean]

/-! ## C5 — zero benchmark variance -/

/-- C5, counterexample: with `benchmark_returns = [1, 1]` (variance exactly
zero) the code does not signal any `DegenerateInputError` — no error path
exists in `calculate_beta` — it performs the division and returns the
non-finite float (numpy emits only a `RuntimeWarning` for the zero
divisor). -/
theorem c5_counterexample :
    npVar ([1, 1] : List ℚ) = 0 ∧
    calculate_beta [0, 1] [1, 1] = NpVal.nonfinite := by
  constructor <;> norm_num [calculate_beta, npDivFloat, npCovPair, npVar, npMean]

/-- C5, amended: for every pair of return series whose benchmark has exactly
zero variance, `calculate_beta` divides anyway and evaluates to a
non-finite float (`nan` or `±inf`); no exception is raised. -/
theorem c5_zero_variance_nonfinite (returns benchmark_returns : List ℚ)
    (h : npVar benchmark_returns = 0) :
    calculate_beta returns benchmark_returns = NpVal.nonfinite := by
  simp [calculate_beta, npDivFloat, h]

/-- C5, witness: the amended statement at `returns = [2, 3]`,
`benchmark_returns = [5, 5]`. -/
theorem c5_zero_variance_nonfinite_witness :
    npVar ([5, 5] : List ℚ) = 0 ∧
    calculate_beta [2, 3] [5, 5] = NpVal.nonfinite :=
  ⟨by norm_num [npVar, npMean],
   c5_zero_variance_nonfinite [2, 3] [5, 5] (by norm_num [npVar, npMean])⟩

/-! ## C6 — insufficient sample for normality tests -/

/-- C6: for every return sample with fewer than 3 observations (in
particular length 2), `normality_tests` fails with the error raised by
`scipy.stats.shapiro` for insufficient data ("Data must be at least length
3.") instead of silently returning a statistic; the dict literal evaluates
`stats.shapiro` first, so the whole call aborts with that error. -/
theorem c6_insufficient_sample (returns : List ℚ) (h : returns.length < 3) :
    normality_tests returns = Except.error PyError.valueError := by
  simp [normality_tests, stats_shapiro, h, Bind.bind, Except.bind]

/-- C6, witness: a concrete sample of length 2. -/
theorem c6_insufficient_sample_witness :
    ([1/2, 1/3] : List ℚ).length < 3 ∧
    normality_tests [1/2, 1/3] = Except.error PyError.valueError :=
  ⟨by decide, c6_insufficient_sample [1/2, 1/3] (by decide)⟩

/-! ## C7 — no parameter validation in the splitter -/

/-- C7, counterexample: with `window_size = 0 ≤ 0` (and `forecast_horizon =
1`) the splitter raises no `InvalidConfiguration` — no validation exists in
the source — and yields three pairs with empty train slices. -/
theorem c7_counterexample :
    generate_walk_forward_splits [1, 2, 3] 0 1 =
      Except.ok [([], [1]), ([], [2]), ([], [3])] := rfl

/-- C7, amended: the splitter validates nothing.  For every `window_size`
(including every value ≤ 0) and every nonzero `forecast_horizon` (including
negative values) it completes without any error and yields its list of
pairs.  Only `forecast_horizon = 0` produces an error — Python `range`'s
`ValueError`, raised lazily at the first advance of the generator, not
eagerly before iteration. -/
theorem c7_no_validation (data : List ℚ) (window_size forecast_horizon : ℤ)
    (h : forecast_horizon ≠ 0) :
    ∃ l, generate_walk_forward_splits data window_size forecast_horizon = Except.ok l := by
  simp only [generate_walk_forward_splits, pyRange, if_neg h]
  exact ⟨_, rfl⟩

/-- C7, witness: the amended statement at negative `window_size = -4` and
negative `forecast_horizon = -5`. -/
theorem c7_no_validation_witness :
    ((-5 : ℤ) ≠ 0) ∧
    ∃ l, generate_walk_forward_splits [1, 2, 3] (-4) (-5) = Except.ok l :=
  ⟨by decide, c7_no_validation [1, 2, 3] (-4) (-5) (by decide)⟩

/-! ## C10 — hard-coded Monte Carlo defaults -/

/-- Length of a cumulative product equals the input length. -/
theorem npCumprod_length (xs : List ℚ) : (npCumprod xs).length = xs.length := by
  simp [npCumprod, List.length_scanl]

/-- Shape of `simulate`'s output: `num_simulations` rows of `num_periods`
entries, in both the draw matrix and the portfolio-value matrix. -/
theorem simulate_shape (returns : List ℚ) (ns np2 : ℕ) (z : ℕ → ℕ → ℚ) :
    (simulate returns ns np2 z).simulations.length = ns ∧
    (simulate returns ns np2 z).simulations.map List.length = List.replicate ns np2 ∧
    (simulate returns ns np2 z).portfolio_values.map List.length = List.replicate ns np2 := by
  refine ⟨by simp [simulate], ?_, ?_⟩
  · rw [List.eq_replicate_iff]
    refine ⟨by simp [simulate], ?_⟩
    intro b hb
    simp only [simulate, List.map_map] at hb
    obtain ⟨i, -, rfl⟩ := List.mem_map.mp hb
    simp [Function.comp]
  · rw [List.eq_replicate_iff]
    refine ⟨by simp [simulate], ?_⟩
    intro b hb
    simp only [simulate, List.map_map] at hb
    obtain ⟨i, -, rfl⟩ := List.mem_map.mp hb
    simp [Function.comp, npCumprod_length]

/-- C10: the Monte Carlo stage of `run_comprehensive_backtest` always runs
`simulate` with the hard-coded defaults of 10000 simulations of 252 periods:
the stage equals `simulate` at `10000`/`252`, is unaffected by the
configuration (any two configurations give the same result), and the
resulting matrices have exactly 10000 rows of 252 entries. -/
theorem c10_monte_carlo_hardcoded_defaults (c c' : BacktestConfig)
    (strategy_returns : List ℚ) (z : ℕ → ℕ → ℚ) :
    monte_carlo_stage c strategy_returns z = simulate strategy_returns 10000 252 z ∧
    monte_carlo_stage c strategy_returns z = monte_carlo_stage c' strategy_returns z ∧
    (monte_carlo_stage c strategy_returns z).simulations.length = 10000 ∧
    (monte_carlo_stage c strategy_returns z).simulations.map List.length =
      List.replicate 10000 252 ∧
    (monte_carlo_stage c strategy_returns z).portfolio_values.map List.length =
      List.replicate 10000 252 :=
  ⟨rfl, rfl, (simulate_shape strategy_returns 10000 252 z).1,
   (simulate_shape strategy_returns 10000 252 z).2.1,
   (simulate_shape strategy_returns 10000 252 z).2.2⟩

/-! ## Percentile lemmas (C9, C8) -/

/-- Entries of a sorted list are monotone in the index (`getD` form). -/
theorem sorted_getD_le (s : List ℚ) (hs : List.Sorted (· ≤ ·) s) {i j : ℕ}
    (hij : i ≤ j) (hj : j < s.length) : s.getD i 0 ≤ s.getD j 0 := by
  have hi : i < s.length := Nat.lt_of_le_of_lt hij hj
  rw [List.getD_eq_getElem s 0 hi, List.getD_eq_getElem s 0 hj]
  rcases eq_or_lt_of_le hij with rfl | hlt
  · exact le_refl _
  · exact List.pairwise_iff_getElem.mp hs i j hi hj hlt

/-- Monotonicity of linear interpolation between order statistics of a
sorted list: the interpolated value at position `h1` is at most the one at
position `h2 ≥ h1`, for positions within `[0, n - 1]`. -/
theorem interp_mono (s : List ℚ) (hs : List.Sorted (· ≤ ·) s) (h1 h2 : ℚ)
    (hle : h1 ≤ h2) (hlb : 0 ≤ h1) (hub : h2 ≤ (s.length : ℚ) - 1) :
    s.getD (⌊h1⌋).toNat 0 + (h1 - (⌊h1⌋ : ℚ)) *
        (s.getD (min ((⌊h1⌋).toNat + 1) (s.length - 1)) 0 - s.getD (⌊h1⌋).toNat 0) ≤
      s.getD (⌊h2⌋).toNat 0 + (h2 - (⌊h2⌋ : ℚ)) *
        (s.getD (min ((⌊h2⌋).toNat + 1) (s.length - 1)) 0 - s.getD (⌊h2⌋).toNat 0) := by
  have hlb2 : 0 ≤ h2 := le_trans hlb hle
  have hub1 : h1 ≤ (s.length : ℚ) - 1 := le_trans hle hub
  have hn1 : 1 ≤ s.length := by
    rcases Nat.eq_zero_or_pos s.length with h0 | hpos
    · exfalso; rw [h0] at hub; push_cast at hub; linarith
    · exact hpos
  have hf1n : (0 : ℤ) ≤ ⌊h1⌋ := Int.floor_nonneg.mpr hlb
  have hf2n : (0 : ℤ) ≤ ⌊h2⌋ := Int.floor_nonneg.mpr hlb2
  have hql : ((s.length : ℚ) - 1) = (((s.length : ℤ) - 1 : ℤ) : ℚ) := by push_cast; ring
  have hfu1 : ⌊h1⌋ ≤ (s.length : ℤ) - 1 := by
    have h := Int.floor_le_floor hub1
    rwa [hql, Int.floor_intCast] at h
  have hfu2 : ⌊h2⌋ ≤ (s.length : ℤ) - 1 := by
    have h := Int.floor_le_floor hub
    rwa [hql, Int.floor_intCast] at h
  have hi1 : (⌊h1⌋).toNat < s.length := by omega
  have hi2 : (⌊h2⌋).toNat < s.length := by omega
  have hj1 : min ((⌊h1⌋).toNat + 1) (s.length - 1) < s.length :=
    Nat.lt_of_le_of_lt (min_le_right _ _) (by omega)
  have hj2 : min ((⌊h2⌋).toNat + 1) (s.length - 1) < s.length :=
    Nat.lt_of_le_of_lt (min_le_right _ _) (by omega)
  have hg1 : 0 ≤ h1 - (⌊h1⌋ : ℚ) := sub_nonneg.mpr (Int.floor_le h1)
  have hg2 : 0 ≤ h2 - (⌊h2⌋ : ℚ) := sub_nonneg.mpr (Int.floor_le h2)
  have hg1u : h1 - (⌊h1⌋ : ℚ) < 1 := by
    have := Int.lt_floor_add_one h1
    linarith
  have hlo1 : s.getD (⌊h1⌋).toNat 0 ≤ s.getD (min ((⌊h1⌋).toNat + 1) (s.length - 1)) 0 :=
    sorted_getD_le s hs (le_min (by omega) (by omega)) hj1
  have hlo2 : s.getD (⌊h2⌋).toNat 0 ≤ s.getD (min ((⌊h2⌋).toNat + 1) (s.length - 1)) 0 :=
    sorted_getD_le s hs (le_min (by omega) (by omega)) hj2
  rcases eq_or_lt_of_le (Int.floor_le_floor hle) with hE | hL
  · rw [← hE]
    have hgg : h1 - (⌊h1⌋ : ℚ) ≤ h2 - (⌊h1⌋ : ℚ) := by linarith
    have hd : 0 ≤ s.getD (min ((⌊h1⌋).toNat + 1) (s.length - 1)) 0 - s.getD (⌊h1⌋).toNat 0 :=
      sub_nonneg.mpr hlo1
    have := mul_le_mul_of_nonneg_right hgg hd
    linarith
  · have hij : min ((⌊h1⌋).toNat + 1) (s.length - 1) ≤ (⌊h2⌋).toNat :=
      le_trans (min_le_left _ _) (by omega)
    have hmid : s.getD (min ((⌊h1⌋).toNat + 1) (s.length - 1)) 0 ≤ s.getD (⌊h2⌋).toNat 0 :=
      sorted_getD_le s hs hij hi2
    have e1 : s.getD (⌊h1⌋).toNat 0 + (h1 - (⌊h1⌋ : ℚ)) *
        (s.getD (min ((⌊h1⌋).toNat + 1) (s.length - 1)) 0 - s.getD (⌊h1⌋).toNat 0) ≤
        s.getD (min ((⌊h1⌋).toNat + 1) (s.length - 1)) 0 := by
      nlinarith [mul_nonneg (by linarith : (0:ℚ) ≤ 1 - (h1 - (⌊h1⌋ : ℚ)))
        (sub_nonneg.mpr hlo1)]
    have e2 : s.getD (⌊h2⌋).toNat 0 ≤ s.getD (⌊h2⌋).toNat 0 + (h2 - (⌊h2⌋ : ℚ)) *
        (s.getD (min ((⌊h2⌋).toNat + 1) (s.length - 1)) 0 - s.getD (⌊h2⌋).toNat 0) := by
      nlinarith [mul_nonneg hg2 (sub_nonneg.mpr hlo2)]
    linarith

/-- `np.percentile` with linear interpolation is monotone in the requested
percentile `q` over the meaningful range `[0, 100]`. -/
theorem npPercentile_mono (xs : List ℚ) {q1 q2 : ℚ} (h0 : 0 ≤ q1) (h12 : q1 ≤ q2)
    (h100 : q2 ≤ 100) : npPercentile xs q1 ≤ npPercentile xs q2 := by
  rcases Nat.eq_zero_or_pos (List.insertionSort (· ≤ ·) xs).length with hn0 | hn1
  · have hnil : List.insertionSort (· ≤ ·) xs = [] := List.length_eq_zero.mp hn0
    simp [npPercentile, hnil]
  · have hs := List.sorted_insertionSort (· ≤ ·) xs
    have hnn : (0:ℚ) ≤ ((List.insertionSort (· ≤ ·) xs).length : ℚ) - 1 := by
      have : (1:ℚ) ≤ ((List.insertionSort (· ≤ ·) xs).length : ℚ) := by exact_mod_cast hn1
      linarith
    refine interp_mono _ hs _ _ ?_ ?_ ?_
    · exact (div_le_div_iff_of_pos_right (by norm_num)).mpr (mul_le_mul_of_nonneg_right h12 hnn)
    · exact div_nonneg (mul_nonneg h0 hnn) (by norm_num)
    · rw [div_le_iff₀ (by norm_num : (0:ℚ) < 100)]
      nlinarith [hnn]

/-- Entry `t` of a cross-sectional percentile series, for an in-range
period. -/
theorem percentileAxis0_getD (pv : List (List ℚ)) (q : ℚ) (t : ℕ)
    (ht : t < (pv.headD []).length) :
    (percentileAxis0 pv q).getD t 0 = npPercentile (columnAt pv t) q := by
  have hlen : t < ((List.range (pv.headD []).length).map
      (fun u => npPercentile (columnAt pv u) q)).length := by simpa using ht
  rw [percentileAxis0, List.getD_eq_getElem _ _ hlen, List.getElem_map, List.getElem_range]

/-- Entry `t` of a cross-sectional percentile series defaults to 0 past the
end. -/
theorem percentileAxis0_getD_default (pv : List (List ℚ)) (q : ℚ) (t : ℕ)
    (ht : (pv.headD []).length ≤ t) : (percentileAxis0 pv q).getD t 0 = 0 := by
  apply List.getD_eq_default
  simpa [percentileAxis0] using ht

/-! ## C9 — nested confidence bands -/

/-- C9: at every period `t`, the confidence bands computed by
`calculate_confidence_intervals` are nested: the 95% lower bound (2.5th
percentile) is at least the 99% lower bound (0.5th percentile), and the 95%
upper bound (97.5th percentile) is at most the 99% upper bound (99.5th
percentile) — the 99% band is never narrower than the 95% band.  This holds
for every portfolio-value matrix, hence for every simulation result. -/
theorem c9_bands_nested (pv : List (List ℚ)) (t : ℕ) :
    (calculate_confidence_intervals pv).ci99.1.getD t 0 ≤
      (calculate_confidence_intervals pv).ci95.1.getD t 0 ∧
    (calculate_confidence_intervals pv).ci95.2.getD t 0 ≤
      (calculate_confidence_intervals pv).ci99.2.getD t 0 := by
  have e1 : (calculate_confidence_intervals pv).ci95.1 = percentileAxis0 pv (5/2) := rfl
  have e2 : (calculate_confidence_intervals pv).ci95.2 = percentileAxis0 pv (195/2) := rfl
  have e3 : (calculate_confidence_intervals pv).ci99.1 = percentileAxis0 pv (1/2) := rfl
  have e4 : (calculate_confidence_intervals pv).ci99.2 = percentileAxis0 pv (199/2) := rfl
  rw [e1, e2, e3, e4]
  rcases lt_or_ge t (pv.headD []).length with ht | ht
  · rw [percentileAxis0_getD pv (5/2) t ht, percentileAxis0_getD pv (195/2) t ht,
      percentileAxis0_getD pv (1/2) t ht, percentileAxis0_getD pv (199/2) t ht]
    exact ⟨npPercentile_mono _ (by norm_num) (by norm_num) (by norm_num),
      npPercentile_mono _ (by norm_num) (by norm_num) (by norm_num)⟩
  · rw [percentileAxis0_getD_default pv (5/2) t ht,
      percentileAxis0_getD_default pv (195/2) t ht,
      percentileAxis0_getD_default pv (1/2) t ht,
      percentileAxis0_getD_default pv (199/2) t ht]
    exact ⟨le_refl 0, le_refl 0⟩

/-! ## C8 — deterministic paths when the standard deviation is zero -/

/-- Population variance is nonnegative. -/
theorem npVar_nonneg (xs : List ℚ) : 0 ≤ npVar xs := by
  apply div_nonneg
  · apply List.sum_nonneg
    intro x hx
    obtain ⟨y, -, rfl⟩ := List.mem_map.mp hx
    positivity
  · positivity

/-- `ratSqrt` of a positive rational is positive. -/
theorem ratSqrt_pos {q : ℚ} (h : 0 < q) : 0 < ratSqrt q := by
  rw [ratSqrt, if_neg (not_le.mpr h)]
  apply div_pos
  · have hnum : 0 < q.num := Rat.num_pos.mpr h
    have hden : 0 < q.den := Nat.pos_of_ne_zero q.den_nz
    have hprod : 0 < q.num.toNat * q.den := Nat.mul_pos (by omega) hden
    exact_mod_cast Nat.sqrt_pos.mpr hprod
  · exact_mod_cast Nat.pos_of_ne_zero q.den_nz

/-- A zero standard deviation forces a zero variance. -/
theorem npVar_of_npStd_zero (xs : List ℚ) (h : npStd xs = 0) : npVar xs = 0 := by
  by_contra hne
  have hpos : 0 < npVar xs := lt_of_le_of_ne (npVar_nonneg xs) (Ne.symm hne)
  have := ratSqrt_pos hpos
  rw [npStd] at h
  linarith

/-- The percentile of a constant data vector is that constant, for any
percentile in `[0, 100]`. -/
theorem npPercentile_const {c : ℚ} (xs : List ℚ) (hne : xs ≠ [])
    {q : ℚ} (h0 : 0 ≤ q) (h100 : q ≤ 100) (hall : ∀ x ∈ xs, x = c) :
    npPercentile xs q = c := by
  have hperm := List.perm_insertionSort (· ≤ ·) xs
  have hn1 : 1 ≤ (List.insertionSort (· ≤ ·) xs).length := by
    rw [hperm.length_eq]
    exact List.length_pos.mpr hne
  have halls : ∀ x ∈ List.insertionSort (· ≤ ·) xs, x = c := fun x hx =>
    hall x (hperm.mem_iff.mp hx)
  simp only [npPercentile]
  set s := List.insertionSort (· ≤ ·) xs with hsdef
  set h := q * ((s.length : ℚ) - 1) / 100 with hhdef
  have hnn : (0 : ℚ) ≤ (s.length : ℚ) - 1 := by
    have : (1 : ℚ) ≤ (s.length : ℚ) := by exact_mod_cast hn1
    linarith
  have hlb : 0 ≤ h := by
    rw [hhdef]
    exact div_nonneg (mul_nonneg h0 hnn) (by norm_num)
  have hub : h ≤ (s.length : ℚ) - 1 := by
    rw [hhdef, div_le_iff₀ (by norm_num : (0:ℚ) < 100)]
    nlinarith [hnn]
  have hfn : (0 : ℤ) ≤ ⌊h⌋ := Int.floor_nonneg.mpr hlb
  have hfu : ⌊h⌋ ≤ (s.length : ℤ) - 1 := by
    have hq := Int.floor_le_floor hub
    rwa [show ((s.length : ℚ) - 1) = (((s.length : ℤ) - 1 : ℤ) : ℚ) by push_cast; ring,
      Int.floor_intCast] at hq
  have hi : (⌊h⌋).toNat < s.length := by omega
  have hj : min ((⌊h⌋).toNat + 1) (s.length - 1) < s.length :=
    Nat.lt_of_le_of_lt (min_le_right _ _) (by omega)
  have hgi : s.getD (⌊h⌋).toNat 0 = c := by
    rw [List.getD_eq_getElem s 0 hi]
    exact halls _ (List.getElem_mem hi)
  have hgj : s.getD (min ((⌊h⌋).toNat + 1) (s.length - 1)) 0 = c := by
    rw [List.getD_eq_getElem s 0 hj]
    exact halls _ (List.getElem_mem hj)
  rw [hgi, hgj]
  ring

/-- Cross-sectional percentiles of a matrix of identical rows reproduce the
row, entry by entry. -/
theorem percentileAxis0_replicate (row : List ℚ) (nsim t : ℕ) (hns : 1 ≤ nsim)
    (ht : t < row.length) {q : ℚ} (h0 : 0 ≤ q) (h100 : q ≤ 100) :
    (percentileAxis0 (List.replicate nsim row) q).getD t 0 = row.getD t 0 := by
  have hhead : (List.replicate nsim row).headD [] = row := by
    obtain ⟨m, rfl⟩ : ∃ m, nsim = m + 1 := ⟨nsim - 1, by omega⟩
    rw [List.replicate_succ, List.headD_cons]
  rw [percentileAxis0_getD _ _ _ (by rw [hhead]; exact ht)]
  rw [show columnAt (List.replicate nsim row) t = List.replicate nsim (row.getD t 0) by
    simp [columnAt, List.map_replicate]]
  apply npPercentile_const _ (List.length_pos.mp (by simpa using hns)) h0 h100
  intro x hx
  exact (List.mem_replicate.mp hx).2

/-- Cumulative products of a constant sequence are the powers of the
constant, starting from the seed `a`. -/
theorem scanl_mul_replicate (c : ℚ) (m : ℕ) : ∀ a : ℚ,
    List.scanl (fun acc x => acc * x) a (List.replicate m c) =
      (List.range (m + 1)).map (fun k => a * c ^ k) := by
  induction m with
  | zero =>
      intro a
      rw [List.range_succ_eq_map 0]
      simp
  | succ m ih =>
      intro a
      rw [List.replicate_succ, List.scanl_cons, List.singleton_append, ih (a * c),
        List.range_succ_eq_map (m + 1), List.map_cons, List.map_map]
      congr 1
      · simp
      · apply List.map_congr_left
        intro k hk
        simp only [Function.comp_apply, Nat.succ_eq_add_one, pow_succ]
        ring

/-- `np.cumprod` of a constant sequence: element `k` is `c ^ (k + 1)`. -/
theorem npCumprod_replicate (c : ℚ) (m : ℕ) :
    npCumprod (List.replicate m c) = (List.range m).map (fun k => c ^ (k + 1)) := by
  rw [npCumprod, scanl_mul_replicate c m 1, List.range_succ_eq_map, List.map_cons,
    List.drop_succ_cons, List.drop_zero, List.map_map]
  apply List.map_congr_left
  intro k hk
  simp [Function.comp, Nat.succ_eq_add_one]

/-- With zero variance every draw equals the mean, so every simulated path
is the deterministic compounding path `(1 + μ) ^ (t + 1)`. -/
theorem simulate_pv_var_zero (returns : List ℚ) (nsim nper : ℕ) (z : ℕ → ℕ → ℚ)
    (hvar : npVar returns = 0) :
    (simulate returns nsim nper z).portfolio_values =
      List.replicate nsim
        ((List.range nper).map (fun k => (1 + npMean returns) ^ (k + 1))) := by
  have hsig : npStd returns = 0 := by rw [npStd, hvar]; simp [ratSqrt]
  simp only [simulate, hsig, zero_mul, add_zero, List.map_map]
  rw [List.eq_replicate_iff]
  constructor
  · simp
  · intro b hb
    obtain ⟨i, -, rfl⟩ := List.mem_map.mp hb
    simp only [Function.comp_apply, List.map_map]
    rw [show ((fun r => 1 + r) ∘ fun _ : ℕ => npMean returns)
        = (fun _ : ℕ => 1 + npMean returns) from rfl]
    rw [show (List.range nper).map (fun _ : ℕ => 1 + npMean returns)
        = List.replicate nper (1 + npMean returns) by simp]
    rw [npCumprod_replicate]

/-- C8: for every nonempty return sample whose `np.std` is exactly zero, the
simulation raises no error (the embedding is total: `np.random.normal`
accepts `scale=0` and only rejects negative scales), every simulated path's
portfolio value at period `t` (1-based period `t + 1` here, 0-based index
`t`) equals `(1 + μ) ^ (t + 1)` exactly, and all four confidence-band series
(95% and 99%, lower and upper) collapse to that same value at every
period. -/
theorem c8_sigma_zero_deterministic (returns : List ℚ) (z : ℕ → ℕ → ℚ)
    (nsim nper i t : ℕ) (hret : returns ≠ []) (hsigma : npStd returns = 0)
    (hi : i < nsim) (ht : t < nper) :
    (((simulate returns nsim nper z).portfolio_values.getD i []).getD t 0
        = (1 + npMean returns) ^ (t + 1)) ∧
    ((simulate returns nsim nper z).confidence_intervals.ci95.1.getD t 0
        = (1 + npMean returns) ^ (t + 1)) ∧
    ((simulate returns nsim nper z).confidence_intervals.ci95.2.getD t 0
        = (1 + npMean returns) ^ (t + 1)) ∧
    ((simulate returns nsim nper z).confidence_intervals.ci99.1.getD t 0
        = (1 + npMean returns) ^ (t + 1)) ∧
    ((simulate returns nsim nper z).confidence_intervals.ci99.2.getD t 0
        = (1 + npMean returns) ^ (t + 1)) := by
  have hvar : npVar returns = 0 := npVar_of_npStd_zero returns hsigma
  have hpv := simulate_pv_var_zero returns nsim nper z hvar
  have hns : 1 ≤ nsim := by omega
  have hrow : ((List.range nper).map (fun k => (1 + npMean returns) ^ (k + 1))).getD t 0
      = (1 + npMean returns) ^ (t + 1) := by
    have hlen : t < ((List.range nper).map
        (fun k => (1 + npMean returns) ^ (k + 1))).length := by simpa using ht
    rw [List.getD_eq_getElem _ _ hlen, List.getElem_map, List.getElem_range]
  have htrow : t < ((List.range nper).map
      (fun k => (1 + npMean returns) ^ (k + 1))).length := by simpa using ht
  refine ⟨?_, ?_, ?_, ?_, ?_⟩
  · rw [hpv, List.getD_eq_getElem _ _ (show i < (List.replicate nsim
      ((List.range nper).map (fun k => (1 + npMean returns) ^ (k + 1)))).length by
        simpa using hi), List.getElem_replicate]
    exact hrow
  · rw [show (simulate returns nsim nper z).confidence_intervals.ci95.1
        = percentileAxis0 ((simulate returns nsim nper z).portfolio_values) (5/2) from rfl,
      hpv, percentileAxis0_replicate _ nsim t hns htrow (by norm_num) (by norm_num)]
    exact hrow
  · rw [show (simulate returns nsim nper z).confidence_intervals.ci95.2
        = percentileAxis0 ((simulate returns nsim nper z).portfolio_values) (195/2) from rfl,
      hpv, percentileAxis0_replicate _ nsim t hns htrow (by norm_num) (by norm_num)]
    exact hrow
  · rw [show (simulate returns nsim nper z).confidence_intervals.ci99.1
        = percentileAxis0 ((simulate returns nsim nper z).portfolio_values) (1/2) from rfl,
      hpv, percentileAxis0_replicate _ nsim t hns htrow (by norm_num) (by norm_num)]
    exact hrow
  · rw [show (simulate returns nsim nper z).confidence_intervals.ci99.2
        = percentileAxis0 ((simulate returns nsim nper z).portfolio_values) (199/2) from rfl,
      hpv, percentileAxis0_replicate _ nsim t hns htrow (by norm_num) (by norm_num)]
    exact hrow

/-- C8, witness: the sample `[1/10, 1/10]` has mean `1/10` and standard
deviation 0; with 2 simulated paths of 3 periods and arbitrary nonzero
standard-normal draws (`z = 7`), path 1 at period index 2 equals
`(11/10) ^ 3 = 1331/1000`, as do all four confidence bands there. -/
theorem c8_sigma_zero_deterministic_witness :
    (([1/10, 1/10] : List ℚ) ≠ []) ∧ npStd [1/10, 1/10] = 0 ∧
    (((simulate [1/10, 1/10] 2 3 (fun _ _ => 7)).portfolio_values.getD 1 []).getD 2 0
        = (1 + npMean [1/10, 1/10]) ^ 3) ∧
    ((simulate [1/10, 1/10] 2 3 (fun _ _ => 7)).confidence_intervals.ci95.1.getD 2 0
        = (1 + npMean [1/10, 1/10]) ^ 3) ∧
    ((simulate [1/10, 1/10] 2 3 (fun _ _ => 7)).confidence_intervals.ci95.2.getD 2 0
        = (1 + npMean [1/10, 1/10]) ^ 3) ∧
    ((simulate [1/10, 1/10] 2 3 (fun _ _ => 7)).confidence_intervals.ci99.1.getD 2 0
        = (1 + npMean [1/10, 1/10]) ^ 3) ∧
    ((simulate [1/10, 1/10] 2 3 (fun _ _ => 7)).confidence_intervals.ci99.2.getD 2 0
        = (1 + npMean [1/10, 1/10]) ^ 3) ∧
    (1 + npMean ([1/10, 1/10] : List ℚ)) ^ 3 = 1331/1000 := by
  have h := c8_sigma_zero_deterministic [1/10, 1/10] (fun _ _ => 7) 2 3 1 2
    (by decide) (by norm_num [npStd, npVar, npMean, ratSqrt]) (by decide) (by decide)
  exact ⟨by decide, by norm_num [npStd, npVar, npMean, ratSqrt],
    h.1, h.2.1, h.2.2.1, h.2.2.2.1, h.2.2.2.2, by norm_num [npMean]⟩

